import Mathlib

/-!
A verification development for a small "fill-in-the-blank card" service
(`main.py`): a host creates a room from a text template (one slot per
character), guests reserve and commit slots before a closing time, and a
compositor lays committed photos out on a grid.

Modelling conventions:
* Timestamps are minute-resolution values.  The source stores them as
  `"%Y-%m-%dT%H:%M"` strings and compares them with `>=`; for this
  fixed-width format lexicographic order coincides with chronological
  order, so we model a timestamp as `Nat` (minutes) and the comparison as
  `≤` on `Nat`.
* The on-disk photo files (`img_{room_id}_{position}.png`) are modelled as
  an association list `BlobStore` from slot position to raw bytes, for a
  fixed room.
* `base64.b64decode` together with the file write inside the `try` block of
  `join_room` is an external, fallible collaborator; it is modelled as a
  parameter `b64 : String → Option Bytes` (`none` = the call raised).
  The `split(",", 1)` step is modelled concretely (`splitFirst`).
* Python mutates slots in place; here every operation returns the new
  room state (and blob store) explicitly.
* The `ROOM_NOT_FOUND` branch of each endpoint is the registry lookup in
  `rooms_db`; all properties below are about a given existing room, so the
  operations take the `RoomData` directly.
-/

/-- Raw photo bytes. -/
abbrev Bytes := List Nat

/-- `class Slot(BaseModel)` of `main.py`. -/
structure Slot where
  position : Nat
  char : Char
  user : Option String := none
  message : Option String := none
  is_filled : Bool := false
  reserved_by : Option String := none
deriving Repr, DecidableEq

/-- `class RoomData(BaseModel)` of `main.py`; `open_time` in minutes. -/
structure RoomData where
  slots : List Slot
  columns : Nat
  open_time : Nat
deriving Repr, DecidableEq

/-- The per-room photo files `img_{room_id}_{position}.png`, keyed by slot
position. -/
abbrev BlobStore := List (Nat × Bytes)

/-- Writing the file `img_{room_id}_{pos}.png`. -/
def store_put (bs : BlobStore) (pos : Nat) (data : Bytes) : BlobStore :=
  (pos, data) :: bs

/-- `os.path.exists` + `FileResponse`: look a photo up by position. -/
def store_get (bs : BlobStore) (pos : Nat) : Option Bytes :=
  (bs.find? (fun p => p.1 == pos)).map Prod.snd

/-- `GET /img/{room_id}/{position}`: returns the stored bytes, or `none`
("Image not found"). -/
def get_image (bs : BlobStore) (pos : Nat) : Option Bytes :=
  store_get bs pos

/-- `create_room` (`POST /create`): uppercase the text, one slot per
character; a space is created already blocked (`is_filled = true`). -/
def create_room (text : String) (columns : Nat) (open_time : Nat) : RoomData :=
  { slots := (text.toList.map Char.toUpper).enum.map
      (fun p => { position := p.1, char := p.2, is_filled := p.2 == ' ' }),
    columns := columns,
    open_time := open_time }

/-- The response of `GET /status/{room_id}`. -/
structure StatusResponse where
  is_open : Bool
  open_time : Nat
  slots : List Slot
  columns : Nat
deriving Repr, DecidableEq

/-- `check_status` (`GET /status/{room_id}`): `is_open = now >= room.open_time`. -/
def check_status (room : RoomData) (now : Nat) : StatusResponse :=
  { is_open := room.open_time ≤ now,
    open_time := room.open_time,
    slots := room.slots,
    columns := room.columns }

/-- Result of `POST /reserve/{room_id}` (the `status` field, with the
`assigned_char` payload on success).  `TIME_OVER` is what the spec calls
`CLOSED`. -/
inductive ReserveResult where
  | SUCCESS (assigned_char : Char)
  | FULL
  | TIME_OVER
deriving Repr, DecidableEq

/-- Result `status` of `POST /join/{room_id}`.  `TIME_OVER` is the spec's
`CLOSED`. -/
inductive JoinStatus where
  | SUCCESS
  | FULL
  | TIME_OVER
deriving Repr, DecidableEq

/-- First loop of `reserve_slot`:
`slot.reserved_by == request.user_name and not slot.is_filled`. -/
def holdsUncommitted (user : String) (s : Slot) : Bool :=
  s.reserved_by == some user && !s.is_filled

/-- Guard of the second loop of `reserve_slot` (and of `join_room`'s
fallback loop): `not slot.is_filled and slot.reserved_by is None`. -/
def isFreeSlot (s : Slot) : Bool :=
  !s.is_filled && s.reserved_by == none

/-- Second loop of `reserve_slot`: scan for the first free slot, set its
`reserved_by`, and return its `char` together with the updated slot list. -/
def reserveScan (user : String) : List Slot → Option (Char × List Slot)
  | [] => none
  | s :: rest =>
    if isFreeSlot s then
      some (s.char, { s with reserved_by := some user } :: rest)
    else
      match reserveScan user rest with
      | some (c, rest') => some (c, s :: rest')
      | none => none

/-- `reserve_slot` (`POST /reserve/{room_id}`), returning the response and
the room state after the call. -/
def reserve_slot (room : RoomData) (user : String) (now : Nat) :
    ReserveResult × RoomData :=
  if room.open_time ≤ now then (.TIME_OVER, room)
  else
    match room.slots.find? (holdsUncommitted user) with
    | some s => (.SUCCESS s.char, room)
    | none =>
      match reserveScan user room.slots with
      | some (c, slots') => (.SUCCESS c, { room with slots := slots' })
      | none => (.FULL, room)

/-- The commit mutation `join_room` applies to its target slot:
`target_slot.user = ...; target_slot.message = ...; target_slot.is_filled = True`. -/
def commitSlot (user msg : String) (s : Slot) : Slot :=
  { s with user := some user, message := some msg, is_filled := true }

/-- First loop of `join_room`: commit the first slot held (and not yet
filled) by `user`, returning its `position` and the updated list. -/
def commitHeld (user msg : String) : List Slot → Option (Nat × List Slot)
  | [] => none
  | s :: rest =>
    if holdsUncommitted user s then
      some (s.position, commitSlot user msg s :: rest)
    else
      (commitHeld user msg rest).map (fun p => (p.1, s :: p.2))

/-- Fallback loop of `join_room`: commit the first free slot. -/
def commitFree (user msg : String) : List Slot → Option (Nat × List Slot)
  | [] => none
  | s :: rest =>
    if isFreeSlot s then
      some (s.position, commitSlot user msg s :: rest)
    else
      (commitFree user msg rest).map (fun p => (p.1, s :: p.2))

/-- `image_data.split(",", 1)` of the source, on the character list: `none`
when there is no comma (the unpacking raises and the `except` swallows it). -/
def splitFirst (sep : Char) : List Char → Option (List Char × List Char)
  | [] => none
  | c :: rest =>
    if c = sep then some ([], rest)
    else (splitFirst sep rest).map (fun p => (c :: p.1, p.2))

/-- The `try` body of `join_room` up to the bytes to write:
split off the data-URL header, then `base64.b64decode` (modelled by the
fallible `b64`). -/
def persistResult (image_data : String) (b64 : String → Option Bytes) :
    Option Bytes :=
  match splitFirst ',' image_data.toList with
  | none => none
  | some p => b64 (String.mk p.2)

/-- The whole `try ... except` block of `join_room`: on any failure the blob
store is left unchanged and the exception is only logged. -/
def tryPersist (bs : BlobStore) (pos : Nat) (image_data : String)
    (b64 : String → Option Bytes) : BlobStore :=
  match persistResult image_data b64 with
  | none => bs
  | some data => store_put bs pos data

/-- `join_room` (`POST /join/{room_id}`), returning the response, the room
after the call, and the blob store after the call. -/
def join_room (room : RoomData) (bs : BlobStore) (user msg image_data : String)
    (now : Nat) (b64 : String → Option Bytes) :
    JoinStatus × RoomData × BlobStore :=
  if room.open_time ≤ now then (.TIME_OVER, room, bs)
  else
    match commitHeld user msg room.slots with
    | some (pos, slots') =>
      (.SUCCESS, { room with slots := slots' }, tryPersist bs pos image_data b64)
    | none =>
      match commitFree user msg room.slots with
      | some (pos, slots') =>
        (.SUCCESS, { room with slots := slots' }, tryPersist bs pos image_data b64)
      | none => (.FULL, room, bs)

/-- `slot_size = 120` of `make_card`. -/
def slot_size : Nat := 120

/-- `margin = 40` of `make_card`. -/
def margin : Nat := 40

/-- `rows = (total_slots // cols) + (1 if total_slots % cols else 0)`. -/
def card_rows (total_slots cols : Nat) : Nat :=
  total_slots / cols + (if total_slots % cols ≠ 0 then 1 else 0)

/-- `width = (cols * slot_size) + (margin * 2)`. -/
def card_width (cols : Nat) : Nat :=
  cols * slot_size + margin * 2

/-- `height = (rows * slot_size) + (margin * 2)`. -/
def card_height (rows : Nat) : Nat :=
  rows * slot_size + margin * 2

/-- Python truthiness of `slot.user` in `if slot.is_filled and slot.user:`
(`None` and the empty string are falsy). -/
def truthyUser : Option String → Bool
  | none => false
  | some u => u ≠ ""

/-- Paste coordinates of `make_card`:
`x = margin + (position % cols) * slot_size`,
`y = margin + (position // cols) * slot_size`. -/
def slot_xy (cols pos : Nat) : Nat × Nat :=
  (margin + pos % cols * slot_size, margin + pos / cols * slot_size)

/-- The paste operations `make_card` performs: one `(position, x, y)` per
slot whose `char` is not a space, that is filled with a truthy `user`, and
whose photo file exists; all other slots are skipped. -/
def make_card_placements (room : RoomData) (bs : BlobStore) :
    List (Nat × Nat × Nat) :=
  room.slots.filterMap (fun s =>
    if s.char == ' ' then none
    else if s.is_filled && truthyUser s.user && (store_get bs s.position).isSome then
      some (s.position, slot_xy room.columns s.position)
    else none)

/-- A guest-facing mutating operation, for stating invariants over
arbitrary operation sequences. -/
inductive Op where
  | reserve (user : String) (now : Nat)
  | commit (user msg image_data : String) (now : Nat) (b64 : String → Option Bytes)

/-- Run one operation against a room and blob store. -/
def runOp (st : RoomData × BlobStore) : Op → RoomData × BlobStore
  | .reserve user now => ((reserve_slot st.1 user now).2, st.2)
  | .commit user msg img now b64 =>
    (join_room st.1 st.2 user msg img now b64).2

/-- Run a sequence of operations. -/
def runOps (st : RoomData × BlobStore) : List Op → RoomData × BlobStore
  | [] => st
  | op :: ops => runOps (runOp st op) ops

/-! ### Scan infrastructure

All three loops of the source (`reserve_slot`'s two loops and
`join_room`'s two loops) scan the slot list in order and act on the first
match; `findFirstIdx` names the index of that first match. -/

/-- Index of the first slot satisfying `p`, scanning in list order (which
is ascending position order for rooms built by `create_room`). -/
def findFirstIdx (p : Slot → Bool) : List Slot → Option Nat
  | [] => none
  | s :: rest => if p s then some 0 else (findFirstIdx p rest).map (· + 1)

theorem findFirstIdx_none_iff (p : Slot → Bool) (l : List Slot) :
    findFirstIdx p l = none ↔ ∀ s ∈ l, p s = false := by
  induction l with
  | nil => simp [findFirstIdx]
  | cons a rest ih =>
    by_cases h : p a
    · simp [findFirstIdx, h]
    · cases h2 : findFirstIdx p rest with
      | none => simp [findFirstIdx, h, h2, ← ih]
      | some k =>
        simp only [findFirstIdx, h, if_false, h2, Option.map_some']
        simp only [h2] at ih
        simp [h, ← ih]

theorem findFirstIdx_some (p : Slot → Bool) (l : List Slot) (i : Nat)
    (h : findFirstIdx p l = some i) :
    ∃ s, l.get? i = some s ∧ p s = true ∧
      ∀ j s', j < i → l.get? j = some s' → p s' = false := by
  induction l generalizing i with
  | nil => simp [findFirstIdx] at h
  | cons a rest ih =>
    by_cases hp : p a
    · simp [findFirstIdx, hp] at h
      subst h
      exact ⟨a, rfl, hp, fun j s' hj _ => absurd hj (Nat.not_lt_zero j)⟩
    · rw [findFirstIdx, if_neg (by simpa using hp)] at h
      cases hfr : findFirstIdx p rest with
      | none => rw [hfr] at h; simp at h
      | some k =>
        rw [hfr] at h
        simp only [Option.map_some', Option.some.injEq] at h
        subst h
        obtain ⟨s, hs, hps, hmin⟩ := ih k hfr
        refine ⟨s, by simpa using hs, hps, ?_⟩
        intro j s' hj hgj
        cases j with
        | zero =>
          simp only [List.get?_cons_zero, Option.some.injEq] at hgj
          subst hgj; simpa using hp
        | succ j' =>
          exact hmin j' s' (by omega) (by simpa using hgj)

theorem findFirstIdx_of_first (p : Slot → Bool) (l : List Slot) (i : Nat) (s : Slot)
    (hget : l.get? i = some s) (hp : p s = true)
    (hmin : ∀ j s', j < i → l.get? j = some s' → p s' = false) :
    findFirstIdx p l = some i := by
  induction l generalizing i with
  | nil => simp at hget
  | cons a rest ih =>
    cases i with
    | zero =>
      simp only [List.get?_cons_zero, Option.some.injEq] at hget
      subst hget
      simp [findFirstIdx, hp]
    | succ k =>
      have hpa : p a = false := hmin 0 a (Nat.succ_pos k) rfl
      have hrest : findFirstIdx p rest = some k :=
        ih k (by simpa using hget)
          (fun j s' hj hg => hmin (j + 1) s' (by omega) (by simpa using hg))
      simp [findFirstIdx, hpa, hrest]

theorem find?_eq_findFirstIdx (p : Slot → Bool) (l : List Slot) :
    l.find? p = (findFirstIdx p l).bind (fun i => l.get? i) := by
  induction l with
  | nil => rfl
  | cons a rest ih =>
    by_cases h : p a
    · simp [List.find?_cons_of_pos _ h, findFirstIdx, h]
    · cases h2 : findFirstIdx p rest with
      | none => simp [List.find?_cons_of_neg _ h, findFirstIdx, h, h2, ih]
      | some k => simp [List.find?_cons_of_neg _ h, findFirstIdx, h, h2, ih]

theorem reserveScan_eq (user : String) (l : List Slot) :
    reserveScan user l =
      (findFirstIdx isFreeSlot l).bind (fun i =>
        (l.get? i).map (fun s => (s.char, l.set i { s with reserved_by := some user }))) := by
  induction l with
  | nil => rfl
  | cons a rest ih =>
    by_cases h : isFreeSlot a
    · simp [reserveScan, findFirstIdx, h]
    · cases hfr : findFirstIdx isFreeSlot rest with
      | none =>
        have hrs : reserveScan user rest = none := by rw [ih, hfr]; rfl
        simp [reserveScan, findFirstIdx, h, hfr, hrs]
      | some k =>
        cases hg : rest[k]? with
        | none =>
          have hrs : reserveScan user rest = none := by rw [ih, hfr]; simp [hg]
          simp [reserveScan, findFirstIdx, h, hfr, hg, hrs]
        | some s =>
          have hrs : reserveScan user rest =
              some (s.char, rest.set k { s with reserved_by := some user }) := by
            rw [ih, hfr]; simp [hg]
          simp [reserveScan, findFirstIdx, h, hfr, hg, hrs]

theorem commitHeld_eq (user msg : String) (l : List Slot) :
    commitHeld user msg l =
      (findFirstIdx (holdsUncommitted user) l).bind (fun i =>
        (l.get? i).map (fun s => (s.position, l.set i (commitSlot user msg s)))) := by
  induction l with
  | nil => rfl
  | cons a rest ih =>
    by_cases h : holdsUncommitted user a
    · simp [commitHeld, findFirstIdx, h]
    · cases hfr : findFirstIdx (holdsUncommitted user) rest with
      | none =>
        have hrs : commitHeld user msg rest = none := by rw [ih, hfr]; rfl
        simp [commitHeld, findFirstIdx, h, hfr, hrs]
      | some k =>
        cases hg : rest[k]? with
        | none =>
          have hrs : commitHeld user msg rest = none := by rw [ih, hfr]; simp [hg]
          simp [commitHeld, findFirstIdx, h, hfr, hg, hrs]
        | some s =>
          have hrs : commitHeld user msg rest =
              some (s.position, rest.set k (commitSlot user msg s)) := by
            rw [ih, hfr]; simp [hg]
          simp [commitHeld, findFirstIdx, h, hfr, hg, hrs]

theorem commitFree_eq (user msg : String) (l : List Slot) :
    commitFree user msg l =
      (findFirstIdx isFreeSlot l).bind (fun i =>
        (l.get? i).map (fun s => (s.position, l.set i (commitSlot user msg s)))) := by
  induction l with
  | nil => rfl
  | cons a rest ih =>
    by_cases h : isFreeSlot a
    · simp [commitFree, findFirstIdx, h]
    · cases hfr : findFirstIdx isFreeSlot rest with
      | none =>
        have hrs : commitFree user msg rest = none := by rw [ih, hfr]; rfl
        simp [commitFree, findFirstIdx, h, hfr, hrs]
      | some k =>
        cases hg : rest[k]? with
        | none =>
          have hrs : commitFree user msg rest = none := by rw [ih, hfr]; simp [hg]
          simp [commitFree, findFirstIdx, h, hfr, hg, hrs]
        | some s =>
          have hrs : commitFree user msg rest =
              some (s.position, rest.set k (commitSlot user msg s)) := by
            rw [ih, hfr]; simp [hg]
          simp [commitFree, findFirstIdx, h, hfr, hg, hrs]

/-- `join_room`'s slot selection (the two loops of the source): the first
slot held by `user`, else the first free slot. -/
def commit_target_idx (user : String) (slots : List Slot) : Option Nat :=
  match findFirstIdx (holdsUncommitted user) slots with
  | some i => some i
  | none => findFirstIdx isFreeSlot slots

theorem reserve_slot_eq (room : RoomData) (user : String) (now : Nat) :
    reserve_slot room user now =
      if room.open_time ≤ now then (.TIME_OVER, room)
      else
        match findFirstIdx (holdsUncommitted user) room.slots with
        | some i =>
          match room.slots[i]? with
          | some s => (.SUCCESS s.char, room)
          | none => (.FULL, room)
        | none =>
          match findFirstIdx isFreeSlot room.slots with
          | some i =>
            match room.slots[i]? with
            | some s => (.SUCCESS s.char,
                { room with slots := room.slots.set i { s with reserved_by := some user } })
            | none => (.FULL, room)
          | none => (.FULL, room)
  := by
  unfold reserve_slot
  by_cases hto : room.open_time ≤ now
  · simp [hto]
  · simp only [hto, if_false]
    rw [find?_eq_findFirstIdx, reserveScan_eq]
    cases hh : findFirstIdx (holdsUncommitted user) room.slots with
    | some i =>
      obtain ⟨s, hs, -, -⟩ := findFirstIdx_some _ _ _ hh
      have hs2 : room.slots[i]? = some s := by simpa using hs
      simp [hs2]
    | none =>
      cases hf : findFirstIdx isFreeSlot room.slots with
      | some i =>
        obtain ⟨s, hs, -, -⟩ := findFirstIdx_some _ _ _ hf
        have hs2 : room.slots[i]? = some s := by simpa using hs
        simp [hs2]
      | none => simp

theorem join_room_eq (room : RoomData) (bs : BlobStore) (user msg img : String)
    (now : Nat) (b64 : String → Option Bytes) :
    join_room room bs user msg img now b64 =
      if room.open_time ≤ now then (.TIME_OVER, room, bs)
      else
        match commit_target_idx user room.slots with
        | some i =>
          match room.slots[i]? with
          | some s => (.SUCCESS,
              { room with slots := room.slots.set i (commitSlot user msg s) },
              tryPersist bs s.position img b64)
          | none => (.FULL, room, bs)
        | none => (.FULL, room, bs)
  := by
  unfold join_room commit_target_idx
  by_cases hto : room.open_time ≤ now
  · simp [hto]
  · simp only [hto, if_false]
    rw [commitHeld_eq, commitFree_eq]
    cases hh : findFirstIdx (holdsUncommitted user) room.slots with
    | some i =>
      obtain ⟨s, hs, -, -⟩ := findFirstIdx_some _ _ _ hh
      have hs2 : room.slots[i]? = some s := by simpa using hs
      simp [hs2]
    | none =>
      cases hf : findFirstIdx isFreeSlot room.slots with
      | some i =>
        obtain ⟨s, hs, -, -⟩ := findFirstIdx_some _ _ _ hf
        have hs2 : room.slots[i]? = some s := by simpa using hs
        simp [hs2]
      | none => simp

/-! ### Preservation and counting helpers -/

theorem isFreeSlot_not_filled {s : Slot} (h : isFreeSlot s = true) :
    s.is_filled = false := by
  simp only [isFreeSlot, Bool.and_eq_true, Bool.not_eq_true'] at h
  exact h.1

theorem holdsUncommitted_not_filled {user : String} {s : Slot}
    (h : holdsUncommitted user s = true) : s.is_filled = false := by
  simp only [holdsUncommitted, Bool.and_eq_true, Bool.not_eq_true'] at h
  exact h.2

theorem commit_target_not_filled (user : String) (slots : List Slot) (i : Nat)
    (h : commit_target_idx user slots = some i) :
    ∃ s, slots[i]? = some s ∧ s.is_filled = false := by
  unfold commit_target_idx at h
  cases hh : findFirstIdx (holdsUncommitted user) slots with
  | some j =>
    rw [hh] at h
    cases h
    obtain ⟨s, hs, hp, -⟩ := findFirstIdx_some _ _ _ hh
    exact ⟨s, by simpa using hs, holdsUncommitted_not_filled hp⟩
  | none =>
    rw [hh] at h
    obtain ⟨s, hs, hp, -⟩ := findFirstIdx_some _ _ _ h
    exact ⟨s, by simpa using hs, isFreeSlot_not_filled hp⟩

theorem reserve_preserves_filled (room : RoomData) (user : String) (now : Nat)
    (i : Nat) (s : Slot) (hget : room.slots[i]? = some s)
    (hfill : s.is_filled = true) :
    ((reserve_slot room user now).2).slots[i]? = some s := by
  rw [reserve_slot_eq]
  by_cases hto : room.open_time ≤ now
  · simp [hto, hget]
  · simp only [hto, if_false]
    cases hh : findFirstIdx (holdsUncommitted user) room.slots with
    | some j =>
      obtain ⟨t, ht, -, -⟩ := findFirstIdx_some _ _ _ hh
      have ht2 : room.slots[j]? = some t := by simpa using ht
      simp [ht2, hget]
    | none =>
      cases hf : findFirstIdx isFreeSlot room.slots with
      | none => simp [hget]
      | some j =>
        obtain ⟨t, ht, hfree, -⟩ := findFirstIdx_some _ _ _ hf
        have ht2 : room.slots[j]? = some t := by simpa using ht
        have hji : j ≠ i := by
          intro e
          subst e
          rw [hget] at ht2
          cases ht2
          rw [isFreeSlot_not_filled hfree] at hfill
          exact Bool.false_ne_true hfill
        simp only [ht2, List.getElem?_set_ne hji]
        simpa using hget

theorem join_preserves_filled (room : RoomData) (bs : BlobStore)
    (user msg img : String) (now : Nat) (b64 : String → Option Bytes)
    (i : Nat) (s : Slot) (hget : room.slots[i]? = some s)
    (hfill : s.is_filled = true) :
    ((join_room room bs user msg img now b64).2.1).slots[i]? = some s := by
  rw [join_room_eq]
  by_cases hto : room.open_time ≤ now
  · simp [hto, hget]
  · simp only [hto, if_false]
    cases hh : commit_target_idx user room.slots with
    | none => simp [hget]
    | some j =>
      obtain ⟨t, ht2, htf⟩ := commit_target_not_filled _ _ _ hh
      have hji : j ≠ i := by
        intro e
        subst e
        rw [hget] at ht2
        cases ht2
        rw [htf] at hfill
        exact Bool.false_ne_true hfill
      simp only [ht2, List.getElem?_set_ne hji]
      simpa using hget

/-- `count(filled=true) + count(char==blank)` over a room's slots (the
monotone quantity of the spec's §8). -/
def fillCount (room : RoomData) : Nat :=
  room.slots.countP (fun s => s.is_filled) +
    room.slots.countP (fun s => s.char == ' ')

theorem countP_set_eq (p : Slot → Bool) (l : List Slot) (i : Nat) (s a : Slot)
    (h : l[i]? = some s) (hpa : p a = p s) :
    (l.set i a).countP p = l.countP p := by
  induction l generalizing i with
  | nil => simp at h
  | cons b rest ih =>
    cases i with
    | zero =>
      simp only [List.getElem?_cons_zero, Option.some.injEq] at h
      subst h
      simp [List.countP_cons, hpa]
    | succ k =>
      simp only [List.getElem?_cons_succ] at h
      simp [List.countP_cons, ih k h]

theorem countP_set_le (p : Slot → Bool) (l : List Slot) (i : Nat) (s a : Slot)
    (h : l[i]? = some s) (himp : p s = true → p a = true) :
    l.countP p ≤ (l.set i a).countP p := by
  induction l generalizing i with
  | nil => simp at h
  | cons b rest ih =>
    cases i with
    | zero =>
      simp only [List.getElem?_cons_zero, Option.some.injEq] at h
      subst h
      simp only [List.set_cons_zero, List.countP_cons]
      by_cases hb : p b
      · simp [hb, himp hb]
      · simp only [hb, if_false]
        exact Nat.le_add_right _ _
    | succ k =>
      simp only [List.getElem?_cons_succ] at h
      simp only [List.set_cons_succ, List.countP_cons]
      exact Nat.add_le_add_right (ih k h) _

theorem fillCount_reserve (room : RoomData) (user : String) (now : Nat) :
    fillCount ((reserve_slot room user now).2) = fillCount room := by
  rw [reserve_slot_eq]
  by_cases hto : room.open_time ≤ now
  · simp [hto]
  · simp only [hto, if_false]
    cases hh : findFirstIdx (holdsUncommitted user) room.slots with
    | some j =>
      obtain ⟨t, ht, -, -⟩ := findFirstIdx_some _ _ _ hh
      have ht2 : room.slots[j]? = some t := by simpa using ht
      simp [ht2]
    | none =>
      cases hf : findFirstIdx isFreeSlot room.slots with
      | none => simp
      | some j =>
        obtain ⟨t, ht, -, -⟩ := findFirstIdx_some _ _ _ hf
        have ht2 : room.slots[j]? = some t := by simpa using ht
        simp only [ht2, fillCount]
        rw [countP_set_eq (fun s => s.is_filled) room.slots j t
            { t with reserved_by := some user } ht2 rfl,
          countP_set_eq (fun s => s.char == ' ') room.slots j t
            { t with reserved_by := some user } ht2 rfl]

theorem fillCount_join (room : RoomData) (bs : BlobStore)
    (user msg img : String) (now : Nat) (b64 : String → Option Bytes) :
    fillCount room ≤ fillCount ((join_room room bs user msg img now b64).2.1) := by
  rw [join_room_eq]
  by_cases hto : room.open_time ≤ now
  · simp [hto]
  · simp only [hto, if_false]
    cases hh : commit_target_idx user room.slots with
    | none => simp
    | some j =>
      obtain ⟨t, ht2, -⟩ := commit_target_not_filled _ _ _ hh
      simp only [ht2, fillCount]
      have h1 := countP_set_le (fun s => s.is_filled) room.slots _ t
        (commitSlot user msg t) ht2 (fun _ => rfl)
      have h2 := countP_set_eq (fun s => s.char == ' ') room.slots _ t
        (commitSlot user msg t) ht2 rfl
      rw [h2]
      exact Nat.add_le_add_right h1 _

theorem runOp_fillCount (st : RoomData × BlobStore) (op : Op) :
    fillCount st.1 ≤ fillCount (runOp st op).1 := by
  cases op with
  | reserve user now => exact Nat.le_of_eq (fillCount_reserve st.1 user now).symm
  | commit user msg img now b64 => exact fillCount_join st.1 st.2 user msg img now b64

theorem runOps_fillCount (ops : List Op) (st : RoomData × BlobStore) :
    fillCount st.1 ≤ fillCount (runOps st ops).1 := by
  induction ops generalizing st with
  | nil => exact Nat.le_refl _
  | cons op ops ih => exact Nat.le_trans (runOp_fillCount st op) (ih (runOp st op))

theorem runOp_preserves_filled (st : RoomData × BlobStore) (op : Op) (i : Nat)
    (s : Slot) (hget : st.1.slots[i]? = some s) (hfill : s.is_filled = true) :
    (runOp st op).1.slots[i]? = some s := by
  cases op with
  | reserve user now => exact reserve_preserves_filled st.1 user now i s hget hfill
  | commit user msg img now b64 =>
    exact join_preserves_filled st.1 st.2 user msg img now b64 i s hget hfill

theorem runOps_preserves_filled (ops : List Op) (st : RoomData × BlobStore)
    (i : Nat) (s : Slot) (hget : st.1.slots[i]? = some s)
    (hfill : s.is_filled = true) :
    (runOps st ops).1.slots[i]? = some s := by
  induction ops generalizing st with
  | nil => exact hget
  | cons op ops ih =>
    exact ih (runOp st op) (runOp_preserves_filled st op i s hget hfill)

theorem create_room_blank (text : String) (cols t i : Nat) (s : Slot)
    (h : (create_room text cols t).slots[i]? = some s) (hb : s.char = ' ') :
    s.is_filled = true ∧ s.reserved_by = none ∧ s.user = none ∧ s.message = none := by
  simp only [create_room, List.getElem?_map, Option.map_eq_some'] at h
  obtain ⟨p, hp, rfl⟩ := h
  refine ⟨?_, rfl, rfl, rfl⟩
  simpa using hb

theorem create_room_positions (text : String) (cols t i : Nat) (s : Slot)
    (h : (create_room text cols t).slots[i]? = some s) : s.position = i := by
  simp only [create_room, List.getElem?_map, List.getElem?_enum,
    Option.map_eq_some'] at h
  obtain ⟨p, hp, rfl⟩ := h
  obtain ⟨c, -, rfl⟩ := hp
  rfl

/-! ### The claims -/

/-- The room of the spec's past-threshold scenario: text
`"SHARE YOUR HEART"`, 5 columns, closing threshold at minute 600. -/
def scenarioRoom : RoomData := create_room "SHARE YOUR HEART" 5 600

/-- C1 fails on the code: for the scenario room whose threshold (minute
600) is one hour before `now` (minute 660), `check_status` reports
`is_open = true`, not `false` — the source computes
`is_open = now >= room.open_time`. -/
theorem C1_counterexample :
    (scenarioRoom.open_time ≤ 660 ∧ 660 - scenarioRoom.open_time = 60) ∧
    ¬ ((check_status scenarioRoom 660).is_open = false) := by
  decide

/-- C1 (amended): whenever `now ≥ closingThreshold`, `getStatus` reports
`isOpen = true` (the flag is the negation of what the claim states), while
every `reserve` and every `commit` at such a time does return CLOSED
(`TIME_OVER`). -/
theorem C1_amended (room : RoomData) (bs : BlobStore) (user msg img : String)
    (now : Nat) (b64 : String → Option Bytes) (h : room.open_time ≤ now) :
    (check_status room now).is_open = true ∧
    (reserve_slot room user now).1 = .TIME_OVER ∧
    (join_room room bs user msg img now b64).1 = .TIME_OVER := by
  refine ⟨?_, ?_, ?_⟩ <;> simp [check_status, reserve_slot, join_room, h]

theorem C1_amended_witness :
    scenarioRoom.open_time ≤ 660 ∧
    ((check_status scenarioRoom 660).is_open = true ∧
     (reserve_slot scenarioRoom "u" 660).1 = .TIME_OVER ∧
     (join_room scenarioRoom [] "u" "m" "img" 660 (fun _ => none)).1 = .TIME_OVER) :=
  ⟨by decide, C1_amended scenarioRoom [] "u" "m" "img" 660 (fun _ => none) (by decide)⟩

/-- C6: the closing boundary is inclusive — at `now = closingThreshold`
both `reserve` and `commit` return CLOSED (`TIME_OVER`) and leave the room
(and blob store) unchanged. -/
theorem C6_boundary_inclusive (room : RoomData) (bs : BlobStore)
    (user msg img : String) (now : Nat) (b64 : String → Option Bytes)
    (h : now = room.open_time) :
    reserve_slot room user now = (.TIME_OVER, room) ∧
    join_room room bs user msg img now b64 = (.TIME_OVER, room, bs) := by
  subst h
  constructor <;> simp [reserve_slot, join_room]

theorem C6_boundary_inclusive_witness :
    (100 : Nat) = (create_room "abc" 3 100).open_time ∧
    (reserve_slot (create_room "abc" 3 100) "u" 100 =
       (.TIME_OVER, create_room "abc" 3 100) ∧
     join_room (create_room "abc" 3 100) [] "u" "m" "img" 100 (fun _ => none) =
       (.TIME_OVER, create_room "abc" 3 100, [])) :=
  ⟨by decide,
   C6_boundary_inclusive (create_room "abc" 3 100) [] "u" "m" "img" 100
     (fun _ => none) (by decide)⟩

/-- The room of the spec's three-user scenario: text `"ABC"`, 3 columns,
closing threshold at minute 100 (one "hour" after `now = 0`). -/
def roomABC : RoomData := create_room "ABC" 3 100

/-- `roomABC` after `"u1"` reserved. -/
def roomABC1 : RoomData := (reserve_slot roomABC "u1" 0).2

/-- `roomABC1` after `"u2"` reserved. -/
def roomABC2 : RoomData := (reserve_slot roomABC1 "u2" 0).2

/-- `roomABC2` after `"u3"` reserved. -/
def roomABC3 : RoomData := (reserve_slot roomABC2 "u3" 0).2

/-- C2: in an open room whose slot positions are the list indices (as
`create_room` builds them), a reserve by a user holding no non-committed
slot claims the first free slot in ascending position order (`filled=false`,
`reservedBy=null`), returning SUCCESS with its char, and returns FULL when
no free slot exists; in the `"ABC"` room three distinct users receive
`A`, `B`, `C` in order and a fourth gets FULL. -/
theorem C2_reserve_first_free (room : RoomData) (user : String) (now : Nat)
    (h_open : now < room.open_time)
    (h_pos : ∀ (j : Nat) (s' : Slot), room.slots[j]? = some s' → s'.position = j)
    (h_nohold : ∀ s ∈ room.slots, holdsUncommitted user s = false) :
    (∀ (i : Nat) (s : Slot), room.slots[i]? = some s → isFreeSlot s = true →
      (∀ (j : Nat) (s' : Slot), room.slots[j]? = some s' → s'.position < s.position →
        isFreeSlot s' = false) →
      reserve_slot room user now =
        (.SUCCESS s.char,
         { room with slots := room.slots.set i { s with reserved_by := some user } })) ∧
    ((∀ s ∈ room.slots, isFreeSlot s = false) →
      reserve_slot room user now = (.FULL, room)) ∧
    ((reserve_slot roomABC "u1" 0).1 = .SUCCESS 'A' ∧
     (reserve_slot roomABC1 "u2" 0).1 = .SUCCESS 'B' ∧
     (reserve_slot roomABC2 "u3" 0).1 = .SUCCESS 'C' ∧
     (reserve_slot roomABC3 "u4" 0).1 = .FULL) := by
  have hto : ¬ room.open_time ≤ now := Nat.not_le.mpr h_open
  have hheld : findFirstIdx (holdsUncommitted user) room.slots = none :=
    (findFirstIdx_none_iff _ _).mpr h_nohold
  refine ⟨?_, ?_, by decide⟩
  · intro i s hget hfree hmin
    have hmin' : ∀ j s', j < i → room.slots.get? j = some s' →
        isFreeSlot s' = false := by
      intro j s' hj hg
      have hg2 : room.slots[j]? = some s' := by simpa using hg
      have e1 := h_pos j s' hg2
      have e2 := h_pos i s hget
      exact hmin j s' hg2 (by rw [e1, e2]; exact hj)
    have hfi : findFirstIdx isFreeSlot room.slots = some i :=
      findFirstIdx_of_first _ _ i s (by simpa using hget) hfree hmin'
    rw [reserve_slot_eq]
    simp [hto, hheld, hfi, hget]
  · intro hall
    have hfi : findFirstIdx isFreeSlot room.slots = none :=
      (findFirstIdx_none_iff _ _).mpr hall
    rw [reserve_slot_eq]
    simp [hto, hheld, hfi]

/-- The first slot of `roomABC`, as created. -/
def slotA : Slot := { position := 0, char := 'A' }

/-- `slotA` held by `"u1"`. -/
def slotA1 : Slot := { position := 0, char := 'A', reserved_by := some "u1" }

theorem C2_reserve_first_free_witness :
    ((0 : Nat) < roomABC.open_time ∧
     roomABC.slots[0]? = some slotA) ∧
    reserve_slot roomABC "u1" 0 =
      (.SUCCESS 'A',
       { roomABC with slots := roomABC.slots.set 0 slotA1 }) :=
  ⟨⟨by decide, by decide⟩,
   (C2_reserve_first_free roomABC "u1" 0 (by decide)
      (fun j s' h => create_room_positions "ABC" 3 100 j s' h)
      (by decide)).1 0 slotA (by decide) (by decide)
      (fun j s' _ hlt => absurd hlt (Nat.not_lt_zero _))⟩

/-- C3: reserve is idempotent per participant: if a reserve call succeeded
with char `c` and the user's slot has not been committed meanwhile (here:
the very next call on the resulting state), a second reserve by the same
user while the room is open returns SUCCESS with the same `c` and leaves
the room state unchanged. -/
theorem C3_reserve_idempotent (room room' : RoomData) (user : String)
    (now now' : Nat) (c : Char)
    (h1 : reserve_slot room user now = (.SUCCESS c, room'))
    (h2 : now' < room'.open_time) :
    reserve_slot room' user now' = (.SUCCESS c, room') := by
  rw [reserve_slot_eq] at h1
  by_cases hto : room.open_time ≤ now
  · rw [if_pos hto] at h1
    exact absurd (congrArg Prod.fst h1) (by simp)
  · rw [if_neg hto] at h1
    cases hh : findFirstIdx (holdsUncommitted user) room.slots with
    | some i =>
      obtain ⟨t, ht, hp, -⟩ := findFirstIdx_some _ _ _ hh
      have ht2 : room.slots[i]? = some t := by simpa using ht
      simp only [hh, ht2] at h1
      have hc : t.char = c := by
        have := congrArg Prod.fst h1
        simpa using this
      have hr : room = room' := congrArg Prod.snd h1
      subst hr
      have hto' : ¬ room.open_time ≤ now' := Nat.not_le.mpr h2
      rw [reserve_slot_eq, if_neg hto']
      simp [hh, ht2, hc]
    | none =>
      simp only [hh] at h1
      cases hf : findFirstIdx isFreeSlot room.slots with
      | none =>
        simp only [hf] at h1
        exact absurd (congrArg Prod.fst h1) (by simp)
      | some i =>
        obtain ⟨t, ht, hfree, -⟩ := findFirstIdx_some _ _ _ hf
        have ht2 : room.slots[i]? = some t := by simpa using ht
        simp only [hf, ht2] at h1
        have hc : t.char = c := by
          have := congrArg Prod.fst h1
          simpa using this
        have hr : { room with slots := room.slots.set i { t with reserved_by := some user } } = room' :=
          congrArg Prod.snd h1
        have hlen : i < room.slots.length := (List.getElem?_eq_some.mp ht2).1
        have hget' : (room.slots.set i { t with reserved_by := some user })[i]? =
            some { t with reserved_by := some user } :=
          List.getElem?_set_self hlen
        have hheld' : findFirstIdx (holdsUncommitted user)
            (room.slots.set i { t with reserved_by := some user }) = some i := by
          apply findFirstIdx_of_first _ _ i { t with reserved_by := some user }
            (by simpa using hget')
            (by simp [holdsUncommitted, isFreeSlot_not_filled hfree])
          intro j t'' hj hg
          have hne : i ≠ j := (Nat.ne_of_lt hj).symm
          have hg2 : room.slots[j]? = some t'' := by
            rw [← List.getElem?_set_ne hne]
            simpa using hg
          exact (findFirstIdx_none_iff _ _).mp hh t'' (List.getElem?_mem hg2)
        subst hr
        have hto' : ¬ ({ room with slots := room.slots.set i { t with reserved_by := some user } } : RoomData).open_time ≤ now' :=
          Nat.not_le.mpr h2
        subst hc
        rw [reserve_slot_eq, if_neg hto']
        simp [hheld', hget']

theorem C3_reserve_idempotent_witness :
    (reserve_slot roomABC "u1" 0 = (.SUCCESS 'A', roomABC1) ∧
     (0 : Nat) < roomABC1.open_time) ∧
    reserve_slot roomABC1 "u1" 0 = (.SUCCESS 'A', roomABC1) :=
  ⟨⟨by decide, by decide⟩,
   C3_reserve_idempotent roomABC roomABC1 "u1" 0 0 'A' (by decide) (by decide)⟩

theorem findFirstIdx_held_after_set (user : String) (l : List Slot) (i : Nat)
    (t : Slot) (hh : findFirstIdx (holdsUncommitted user) l = none)
    (ht2 : l[i]? = some t) (hfree : isFreeSlot t = true) :
    findFirstIdx (holdsUncommitted user)
      (l.set i { t with reserved_by := some user }) = some i := by
  have hlen : i < l.length := (List.getElem?_eq_some.mp ht2).1
  apply findFirstIdx_of_first _ _ i { t with reserved_by := some user }
    (by simpa using List.getElem?_set_self hlen (a := { t with reserved_by := some user }))
    (by simp [holdsUncommitted, isFreeSlot_not_filled hfree])
  intro j t'' hj hg
  have hne : i ≠ j := (Nat.ne_of_lt hj).symm
  have hg2 : l[j]? = some t'' := by
    rw [← List.getElem?_set_ne hne (a := { t with reserved_by := some user })]
    simpa using hg
  exact (findFirstIdx_none_iff _ _).mp hh t'' (List.getElem?_mem hg2)

/-- C4: `commit` (join) selects the slot already held by the user when one
exists and otherwise the first free slot in scan order
(`commit_target_idx`); `join_room` commits exactly the slot at that index;
and a commit without a prior reserve selects the same slot as a commit run
after a reserve from the same room state. -/
theorem C4_commit_selection (room : RoomData) (bs : BlobStore)
    (user msg img : String) (now : Nat) (b64 : String → Option Bytes)
    (h_open : now < room.open_time) :
    (∀ i : Nat, findFirstIdx (holdsUncommitted user) room.slots = some i →
      commit_target_idx user room.slots = some i) ∧
    (findFirstIdx (holdsUncommitted user) room.slots = none →
      commit_target_idx user room.slots = findFirstIdx isFreeSlot room.slots) ∧
    (∀ (i : Nat) (s : Slot), commit_target_idx user room.slots = some i →
      room.slots[i]? = some s →
      join_room room bs user msg img now b64 =
        (.SUCCESS, { room with slots := room.slots.set i (commitSlot user msg s) },
         tryPersist bs s.position img b64)) ∧
    commit_target_idx user ((reserve_slot room user now).2).slots =
      commit_target_idx user room.slots := by
  have hto : ¬ room.open_time ≤ now := Nat.not_le.mpr h_open
  refine ⟨?_, ?_, ?_, ?_⟩
  · intro i hi
    simp [commit_target_idx, hi]
  · intro hnone
    simp [commit_target_idx, hnone]
  · intro i s hi hs
    rw [join_room_eq, if_neg hto]
    simp [hi, hs]
  · rw [reserve_slot_eq, if_neg hto]
    cases hh : findFirstIdx (holdsUncommitted user) room.slots with
    | some i =>
      obtain ⟨t, ht, -, -⟩ := findFirstIdx_some _ _ _ hh
      have ht2 : room.slots[i]? = some t := by simpa using ht
      simp [ht2]
    | none =>
      cases hf : findFirstIdx isFreeSlot room.slots with
      | none => simp
      | some i =>
        obtain ⟨t, ht, hfree, -⟩ := findFirstIdx_some _ _ _ hf
        have ht2 : room.slots[i]? = some t := by simpa using ht
        have hheld' := findFirstIdx_held_after_set user room.slots i t hh ht2 hfree
        simp only [ht2]
        simp [commit_target_idx, hheld', hh, hf]

theorem C4_commit_selection_witness :
    (0 : Nat) < roomABC.open_time ∧
    commit_target_idx "u1" ((reserve_slot roomABC "u1" 0).2).slots =
      commit_target_idx "u1" roomABC.slots :=
  ⟨by decide,
   (C4_commit_selection roomABC [] "u1" "m" "img" 0 (fun _ => none)
      (by decide)).2.2.2⟩

/-- C5: in an open room with an eligible slot, commit returns SUCCESS and
commits the slot (`filled`, `assignedUser`, `message` set) even when the
photo pipeline (`split`/`b64decode`/write) fails; the failure is never
surfaced, the slot mutation is not reverted, the blob store is left
exactly as it was, and no photo becomes retrievable for that position. -/
theorem C5_commit_persist_failure (room : RoomData) (bs : BlobStore)
    (user msg img : String) (now : Nat) (b64 : String → Option Bytes)
    (h_open : now < room.open_time) (i : Nat)
    (ht : commit_target_idx user room.slots = some i)
    (h_fail : persistResult img b64 = none) :
    ∃ s, room.slots[i]? = some s ∧
      join_room room bs user msg img now b64 =
        (.SUCCESS, { room with slots := room.slots.set i (commitSlot user msg s) }, bs) ∧
      (commitSlot user msg s).is_filled = true ∧
      (commitSlot user msg s).user = some user ∧
      (commitSlot user msg s).message = some msg ∧
      (store_get bs s.position = none →
        get_image (join_room room bs user msg img now b64).2.2 s.position = none) := by
  have hto : ¬ room.open_time ≤ now := Nat.not_le.mpr h_open
  obtain ⟨s, hs, -⟩ := commit_target_not_filled _ _ _ ht
  have hpersist : tryPersist bs s.position img b64 = bs := by
    unfold tryPersist
    rw [h_fail]
  have hj : join_room room bs user msg img now b64 =
      (.SUCCESS, { room with slots := room.slots.set i (commitSlot user msg s) }, bs) := by
    rw [join_room_eq, if_neg hto]
    simp [ht, hs, hpersist]
  refine ⟨s, hs, hj, rfl, rfl, rfl, ?_⟩
  intro hnone
  rw [hj]
  exact hnone

theorem C5_commit_persist_failure_witness :
    ((0 : Nat) < roomABC.open_time ∧
     commit_target_idx "u1" roomABC.slots = some 0 ∧
     persistResult "noheader" (fun _ => some [1]) = none) ∧
    (∃ s, roomABC.slots[0]? = some s ∧
      join_room roomABC [] "u1" "hello" "noheader" 0 (fun _ => some [1]) =
        (.SUCCESS, { roomABC with slots := roomABC.slots.set 0 (commitSlot "u1" "hello" s) }, []) ∧
      (commitSlot "u1" "hello" s).is_filled = true ∧
      (commitSlot "u1" "hello" s).user = some "u1" ∧
      (commitSlot "u1" "hello" s).message = some "hello" ∧
      (store_get [] s.position = none →
        get_image (join_room roomABC [] "u1" "hello" "noheader" 0 (fun _ => some [1])).2.2 s.position = none)) :=
  ⟨⟨by decide, by decide, rfl⟩,
   C5_commit_persist_failure roomABC [] "u1" "hello" "noheader" 0
     (fun _ => some [1]) (by decide) 0 (by decide) rfl⟩

/-- C7: a blank (space) slot is created `filled=true` with no holder, user
or message, is preserved exactly by every sequence of reserve/commit
operations, and is never the slot a commit selects. -/
theorem C7_blank_slots (text : String) (cols tm : Nat) (bs : BlobStore)
    (ops : List Op) (i : Nat) (s : Slot)
    (hs : (create_room text cols tm).slots[i]? = some s)
    (hb : s.char = ' ') :
    s.is_filled = true ∧ s.reserved_by = none ∧ s.user = none ∧ s.message = none ∧
    (runOps (create_room text cols tm, bs) ops).1.slots[i]? = some s ∧
    (∀ u : String,
      commit_target_idx u (runOps (create_room text cols tm, bs) ops).1.slots ≠ some i) := by
  obtain ⟨hfill, hres, huser, hmsg⟩ := create_room_blank text cols tm i s hs hb
  have hkeep := runOps_preserves_filled ops (create_room text cols tm, bs) i s hs hfill
  refine ⟨hfill, hres, huser, hmsg, hkeep, ?_⟩
  intro u hcon
  obtain ⟨s', hs', hsf⟩ := commit_target_not_filled u _ i hcon
  rw [hkeep] at hs'
  cases hs'
  rw [hfill] at hsf
  simp at hsf

/-- The blank slot of `create_room "a b" 3 100`. -/
def blankSlot : Slot := { position := 1, char := ' ', is_filled := true }

theorem C7_blank_slots_witness :
    ((create_room "a b" 3 100).slots[1]? = some blankSlot ∧ blankSlot.char = ' ') ∧
    (blankSlot.is_filled = true ∧ blankSlot.reserved_by = none ∧
     blankSlot.user = none ∧ blankSlot.message = none ∧
     (runOps (create_room "a b" 3 100, []) [.reserve "u1" 0]).1.slots[1]? = some blankSlot ∧
     (∀ u : String,
       commit_target_idx u (runOps (create_room "a b" 3 100, ([] : BlobStore))
         [.reserve "u1" 0]).1.slots ≠ some 1)) :=
  ⟨⟨by decide, rfl⟩,
   C7_blank_slots "a b" 3 100 [] [.reserve "u1" 0] 1 blankSlot (by decide) rfl⟩

theorem le_mul_card_rows (n c : Nat) (hc : 0 < c) : n ≤ c * card_rows n c := by
  unfold card_rows
  have h5 := Nat.div_add_mod n c
  have hlt : n % c < c := Nat.mod_lt n hc
  by_cases h : n % c = 0
  · simp [h]
    omega
  · simp [h]
    rw [Nat.mul_add, Nat.mul_one]
    omega

theorem card_rows_le (n c : Nat) (hc : 0 < c) (m : Nat) (h : n ≤ c * m) :
    card_rows n c ≤ m := by
  unfold card_rows
  have h5 := Nat.div_add_mod n c
  by_cases hr : n % c = 0
  · simp [hr]
    have h2 : c * (n / c) ≤ c * m := by omega
    exact Nat.le_of_mul_le_mul_left h2 hc
  · simp [hr]
    have hrpos : 0 < n % c := Nat.pos_of_ne_zero hr
    have h6 : c * (n / c) < c * m := by omega
    exact Nat.lt_of_mul_lt_mul_left h6

theorem card_rows_eq_ceilDiv (n c : Nat) (hc : 0 < c) :
    card_rows n c = n ⌈/⌉ c := by
  apply Nat.le_antisymm
  · apply card_rows_le n c hc
    have h1 : n ≤ c • (n ⌈/⌉ c) := le_smul_ceilDiv hc
    simpa [smul_eq_mul] using h1
  · have h2 : n ≤ c • card_rows n c := by
      simpa [smul_eq_mul] using le_mul_card_rows n c hc
    exact (ceilDiv_le_iff_le_smul hc).mpr h2

/-- C8: the compositor computes `rows = ceil(totalSlots/columns)`, a canvas
`columns*cellSize + 2*margin` by `rows*cellSize + 2*margin`, and pastes a
photo exactly for the non-blank, committed slots whose photo exists, at
`x = margin + (p % columns)*cellSize`, `y = margin + (p / columns)*cellSize`;
blank placeholders and non-committed slots are not rendered.  Concretely,
for `columns = 5` and 14 slots, `rows = 3` and the width is
`5*cellSize + 2*margin = 680`. -/
theorem C8_card_layout (room : RoomData) (bs : BlobStore) (p x y : Nat)
    (hc : 0 < room.columns) :
    card_rows room.slots.length room.columns =
      room.slots.length ⌈/⌉ room.columns ∧
    card_width room.columns = room.columns * slot_size + 2 * margin ∧
    card_height (card_rows room.slots.length room.columns) =
      card_rows room.slots.length room.columns * slot_size + 2 * margin ∧
    ((p, x, y) ∈ make_card_placements room bs ↔
      ∃ s ∈ room.slots, s.char ≠ ' ' ∧ s.is_filled = true ∧
        truthyUser s.user = true ∧ (store_get bs s.position).isSome = true ∧
        p = s.position ∧ x = margin + p % room.columns * slot_size ∧
        y = margin + p / room.columns * slot_size) ∧
    (card_rows 14 5 = 3 ∧ card_width 5 = 5 * slot_size + 2 * margin ∧
     card_width 5 = 680) := by
  refine ⟨card_rows_eq_ceilDiv _ _ hc, ?_, ?_, ?_, by decide⟩
  · unfold card_width
    ring
  · unfold card_height
    ring
  · unfold make_card_placements
    rw [List.mem_filterMap]
    constructor
    · rintro ⟨s, hsl, hf⟩
      by_cases h1 : s.char == ' '
      · rw [if_pos h1] at hf
        cases hf
      · rw [if_neg h1] at hf
        by_cases h2 : s.is_filled && truthyUser s.user && (store_get bs s.position).isSome
        · rw [if_pos h2] at hf
          obtain ⟨hfi, htr, hso⟩ : s.is_filled = true ∧ truthyUser s.user = true ∧
              (store_get bs s.position).isSome = true := by
            simpa [Bool.and_eq_true, and_assoc] using h2
          injection hf with hf
          obtain ⟨hp, hxy⟩ : s.position = p ∧ slot_xy room.columns s.position = (x, y) := by
            exact ⟨congrArg Prod.fst hf, congrArg Prod.snd hf⟩
          refine ⟨s, hsl, by simpa using h1, hfi, htr, hso, hp.symm, ?_, ?_⟩
          · rw [← hp]
            exact (congrArg Prod.fst hxy).symm
          · rw [← hp]
            exact (congrArg Prod.snd hxy).symm
        · rw [if_neg h2] at hf
          cases hf
    · rintro ⟨s, hsl, hchar, hfi, htr, hso, hp, hx, hy⟩
      refine ⟨s, hsl, ?_⟩
      have h1 : (s.char == ' ') = false := by
        simpa using hchar
      rw [h1]
      simp only [Bool.false_eq_true, if_false, hfi, htr, hso, Bool.and_self, if_true]
      subst hp
      rw [hx, hy]
      rfl

/-- `roomABC1` after `"u1"` committed slot 0 with a decodable photo. -/
def roomABCj : RoomData :=
  (join_room roomABC1 [] "u1" "hi" "d,x" 0 (fun _ => some [7])).2.1

/-- The blob store after that commit. -/
def bsABCj : BlobStore :=
  (join_room roomABC1 [] "u1" "hi" "d,x" 0 (fun _ => some [7])).2.2

theorem C8_card_layout_witness :
    (0 : Nat) < roomABCj.columns ∧
    card_rows roomABCj.slots.length roomABCj.columns =
      roomABCj.slots.length ⌈/⌉ roomABCj.columns :=
  ⟨by decide, (C8_card_layout roomABCj bsABCj 0 40 40 (by decide)).1⟩

/-- C9: `count(filled=true) + count(char==blank)` is non-decreasing across
every sequence of reserve/commit operations, no operation turns a slot's
`filled` from `true` back to `false` (a filled slot is preserved exactly by
both reserve and commit), and `getStatus` does not change the slots at
all. -/
theorem C9_fill_monotone (room : RoomData) (bs : BlobStore) (ops : List Op)
    (user msg img : String) (now : Nat) (b64 : String → Option Bytes)
    (i : Nat) (s : Slot) (hget : room.slots[i]? = some s)
    (hfill : s.is_filled = true) :
    fillCount room ≤ fillCount (runOps (room, bs) ops).1 ∧
    ((reserve_slot room user now).2).slots[i]? = some s ∧
    ((join_room room bs user msg img now b64).2.1).slots[i]? = some s ∧
    (check_status room now).slots = room.slots :=
  ⟨runOps_fillCount ops (room, bs),
   reserve_preserves_filled room user now i s hget hfill,
   join_preserves_filled room bs user msg img now b64 i s hget hfill,
   rfl⟩

theorem C9_fill_monotone_witness :
    ((create_room "a b" 3 100).slots[1]? = some blankSlot ∧
     blankSlot.is_filled = true) ∧
    (fillCount (create_room "a b" 3 100) ≤
       fillCount (runOps (create_room "a b" 3 100, []) [.reserve "u1" 0]).1 ∧
     ((reserve_slot (create_room "a b" 3 100) "u1" 0).2).slots[1]? = some blankSlot ∧
     ((join_room (create_room "a b" 3 100) [] "u1" "m" "img" 0 (fun _ => none)).2.1).slots[1]? =
       some blankSlot ∧
     (check_status (create_room "a b" 3 100) 0).slots = (create_room "a b" 3 100).slots) :=
  ⟨⟨by decide, rfl⟩,
   C9_fill_monotone (create_room "a b" 3 100) [] [.reserve "u1" 0] "u1" "m" "img" 0
     (fun _ => none) 1 blankSlot (by decide) rfl⟩

/-- The two-slot room `"AB"` and the states of the double-occupancy
scenario: `"u"` reserves and commits slot 0, then reserves and commits
again, ending up owning both slots. -/
def roomAB : RoomData := create_room "AB" 2 100

/-- `roomAB` after `"u"` reserved slot 0. -/
def roomABr : RoomData := (reserve_slot roomAB "u" 0).2

/-- After `"u"` committed slot 0. -/
def roomABj : RoomData := (join_room roomABr [] "u" "m" "x" 0 (fun _ => none)).2.1

/-- After `"u"` reserved again (receiving slot 1). -/
def roomABr2 : RoomData := (reserve_slot roomABj "u" 0).2

/-- After `"u"` committed again: both slots belong to `"u"`. -/
def roomABjj : RoomData := (join_room roomABr2 [] "u" "m2" "x" 0 (fun _ => none)).2.1

/-- C10: reservation idempotency does not survive commit: once every slot
the user holds is committed (`filled=true`), a reserve by that user skips
the repeat-call branch entirely (`find?` of a held, uncommitted slot is
`none`) and behaves as a fresh scan for the first free slot (SUCCESS with
its char, or FULL); concretely, `"u"` commits slot 0 of `"AB"`, then a
second reserve returns `'B'` (not `'A'`), and after committing again both
slots carry `user = "u"`. -/
theorem C10_idempotency_lost (room : RoomData) (user : String) (now : Nat)
    (h_open : now < room.open_time)
    (h_committed : ∀ s ∈ room.slots, s.reserved_by = some user → s.is_filled = true) :
    room.slots.find? (holdsUncommitted user) = none ∧
    reserve_slot room user now =
      (match reserveScan user room.slots with
       | some (c, slots') => (.SUCCESS c, { room with slots := slots' })
       | none => (.FULL, room)) ∧
    ((reserve_slot roomAB "u" 0).1 = .SUCCESS 'A' ∧
     (reserve_slot roomABj "u" 0).1 = .SUCCESS 'B' ∧
     ∃ s0 s1, roomABjj.slots[0]? = some s0 ∧ roomABjj.slots[1]? = some s1 ∧
       s0.user = some "u" ∧ s1.user = some "u") := by
  have hto : ¬ room.open_time ≤ now := Nat.not_le.mpr h_open
  have hnone : ∀ s ∈ room.slots, holdsUncommitted user s = false := by
    intro s hs
    by_cases hr : s.reserved_by = some user
    · simp [holdsUncommitted, h_committed s hs hr]
    · simp [holdsUncommitted, hr]
  have hf : room.slots.find? (holdsUncommitted user) = none :=
    List.find?_eq_none.mpr (fun x hx => by simp [hnone x hx])
  refine ⟨hf, ?_, by decide, by decide, ?_⟩
  · unfold reserve_slot
    rw [if_neg hto, hf]
  · exact ⟨_, _, rfl, rfl, rfl, rfl⟩

theorem C10_idempotency_lost_witness :
    ((0 : Nat) < roomABj.open_time ∧
     ∀ s ∈ roomABj.slots, s.reserved_by = some "u" → s.is_filled = true) ∧
    roomABj.slots.find? (holdsUncommitted "u") = none :=
  ⟨⟨by decide, by decide⟩,
   (C10_idempotency_lost roomABj "u" 0 (by decide) (by decide)).1⟩
